import Mathlib

/-!
# Shallow embedding of the ndif-monitor status/history core

This file embeds, in Lean 4, the data model and the pure computational core of
the `ndif-monitor` repository (`src/results.py`, `src/history.py`,
`src/runner.py`) and proves properties about it.

Modelling conventions used throughout:

* Python `str` is modelled by Lean `String` (a sequence of unicode code
  points, as in Python); character-level operations are defined on the
  underlying `List Char`.
* A Python `datetime` value is represented by its canonical ISO-8601 string
  (`datetime.isoformat()` is a bijection between naive datetimes and their
  canonical strings, and the code under study compares and stores datetimes
  through exactly these strings).  Comparison of datetimes is the
  lexicographic comparison of these fixed-width strings.
* Python `dict[str, V]` (insertion ordered) is modelled by an association
  list `List (String × V)`.
* Python `None` / optional values are modelled by `Option`.
* Functions that raise on malformed input are modelled as `Option`-returning.
-/

namespace NdifMonitor

/-- `Status` enumeration from `src/results.py`. -/
inductive Status where
  | OK
  | SLOW
  | DEGRADED
  | FAILED
  | UNAVAILABLE
  | COLD
deriving DecidableEq, Repr

/-- The `.value` of each `Status` member (the string stored in history lines
and persisted records). -/
def Status.value : Status → String
  | .OK => "OK"
  | .SLOW => "SLOW"
  | .DEGRADED => "DEGRADED"
  | .FAILED => "FAILED"
  | .UNAVAILABLE => "UNAVAILABLE"
  | .COLD => "COLD"

/-- `Status(value)` construction: the enum member whose `.value` equals the
given string, `none` when no member matches (Python raises `ValueError`). -/
def Status.ofValue : String → Option Status
  | "OK" => some .OK
  | "SLOW" => some .SLOW
  | "DEGRADED" => some .DEGRADED
  | "FAILED" => some .FAILED
  | "UNAVAILABLE" => some .UNAVAILABLE
  | "COLD" => some .COLD
  | _ => none

/-- `ErrorCategory` enumeration from `src/results.py`. -/
inductive ErrorCategory where
  | MODEL_NOT_LOADED
  | SERIALIZATION_ERROR
  | TIMEOUT
  | SHAPE_MISMATCH
  | VALUE_ERROR
  | CONNECTION_ERROR
  | AUTH_ERROR
  | IMPORT_ERROR
  | UNKNOWN
deriving DecidableEq, Repr

/-- The `.value` of each `ErrorCategory` member. -/
def ErrorCategory.value : ErrorCategory → String
  | .MODEL_NOT_LOADED => "MODEL_NOT_LOADED"
  | .SERIALIZATION_ERROR => "SERIALIZATION_ERROR"
  | .TIMEOUT => "TIMEOUT"
  | .SHAPE_MISMATCH => "SHAPE_MISMATCH"
  | .VALUE_ERROR => "VALUE_ERROR"
  | .CONNECTION_ERROR => "CONNECTION_ERROR"
  | .AUTH_ERROR => "AUTH_ERROR"
  | .IMPORT_ERROR => "IMPORT_ERROR"
  | .UNKNOWN => "UNKNOWN"

/-- `ErrorCategory(value)` construction (`none` models `ValueError`). -/
def ErrorCategory.ofValue : String → Option ErrorCategory
  | "MODEL_NOT_LOADED" => some .MODEL_NOT_LOADED
  | "SERIALIZATION_ERROR" => some .SERIALIZATION_ERROR
  | "TIMEOUT" => some .TIMEOUT
  | "SHAPE_MISMATCH" => some .SHAPE_MISMATCH
  | "VALUE_ERROR" => some .VALUE_ERROR
  | "CONNECTION_ERROR" => some .CONNECTION_ERROR
  | "AUTH_ERROR" => some .AUTH_ERROR
  | "IMPORT_ERROR" => some .IMPORT_ERROR
  | "UNKNOWN" => some .UNKNOWN
  | _ => none

/-! ### Python string comparison

Python compares strings lexicographically by unicode code point; `datetime`
comparison agrees with the lexicographic comparison of the canonical
fixed-width ISO strings that represent the datetimes in this embedding.  The
`<` of Python `str` (and hence of modelled datetimes) is embedded as
`pyStrLt`. -/

/-- Code-point comparison of two characters. -/
def pyCharLt (a b : Char) : Bool := decide (a.toNat < b.toNat)

/-- Lexicographic-by-code-point comparison of two character sequences,
Python's `<` on `str`. -/
def pyStrLtL : List Char → List Char → Bool
  | [], [] => false
  | [], _ :: _ => true
  | _ :: _, [] => false
  | a :: as, b :: bs => if a = b then pyStrLtL as bs else pyCharLt a b

/-- Python `a < b` on strings. -/
def pyStrLt (a b : String) : Bool := pyStrLtL a.data b.data

/-- Python `a <= b` on strings (total order: `a <= b` iff `not (b < a)`). -/
def pyStrLe (a b : String) : Bool := !pyStrLt b a

/-- Python `min(a, b)` for strings (the smaller argument, `a` on ties). -/
def pyMinStr (a b : String) : String := if pyStrLt b a then b else a

/-- `ScenarioResult` dataclass from `src/results.py`.  Datetimes are carried
as their canonical ISO strings (see the file header). -/
structure ScenarioResult where
  status : Status
  duration_ms : Int
  last_checked : String
  last_success : Option String := none
  error_category : Option ErrorCategory := none
  details : Option String := none
deriving DecidableEq, Repr

/-- `ModelStatus` dataclass from `src/results.py`; the `scenarios` dict is an
insertion-ordered association list. -/
structure ModelStatus where
  model : String
  last_updated : String
  nnsight_version : String
  scenarios : List (String × ScenarioResult) := []
deriving DecidableEq, Repr

/-- The helper `worst_status` defined inside `HistoryStore.get_daily_summary`
(`src/history.py`), folding a list of status strings to the worst one;
`none` models Python `None` for an empty input. -/
def worst_status (statuses : List String) : Option String :=
  if "UNAVAILABLE" ∈ statuses then some "UNAVAILABLE"
  else if "FAILED" ∈ statuses then some "FAILED"
  else if "DEGRADED" ∈ statuses then some "DEGRADED"
  else if "SLOW" ∈ statuses then some "SLOW"
  else if ¬statuses.isEmpty ∧ statuses.all (· = "COLD") then some "COLD"
  else if ¬statuses.isEmpty then some "OK" else none

/-- `ModelStatus.overall_status` property from `src/results.py`:
the worst-status fold over the scenario statuses, with the empty scenario map
mapped to `UNAVAILABLE` by convention. -/
def ModelStatus.overall_status (m : ModelStatus) : Status :=
  if m.scenarios.isEmpty then .UNAVAILABLE
  else
    let statuses := m.scenarios.map (fun kv => kv.2.status)
    if .UNAVAILABLE ∈ statuses then .UNAVAILABLE
    else if .FAILED ∈ statuses then .FAILED
    else if .DEGRADED ∈ statuses then .DEGRADED
    else if .SLOW ∈ statuses then .SLOW
    else if statuses.all (· = .COLD) then .COLD
    else .OK

/-- Python `min` over a nonempty list (used by `ModelStatus.last_all_ok`);
for ISO datetime strings the lexicographic minimum is the chronological one. -/
def listMin (x : String) (xs : List String) : String :=
  xs.foldl pyMinStr x

/-- `ModelStatus.last_all_ok` property from `src/results.py`: the minimum of
the scenarios' `last_success` values when all of them are non-null, else
`none`. -/
def ModelStatus.last_all_ok (m : ModelStatus) : Option String :=
  if m.scenarios.isEmpty then none
  else
    let successes := m.scenarios.filterMap (fun kv => kv.2.last_success)
    if successes.isEmpty ∨ successes.length ≠ m.scenarios.length then none
    else match successes with
      | [] => none
      | x :: xs => some (listMin x xs)

/-! ### Error classification (`classify_error` / `determine_status`)

`classify_error` lower-cases the error text and scans an ordered list of
regular-expression patterns, returning the category of the first match.
Every pattern in the source is an alternation of plain substrings, except
for the single-wildcard `api.key` and the `A.*B` forms (`not found.*model`,
`expected.*got`); those are embedded directly (`.` matches any character
except a newline, as in Python's `re` without `DOTALL`).  Lower-casing is
modelled with `Char.toLower` (ASCII case-folding, which agrees with Python
`str.lower` on ASCII text). -/

/-- Python-style lower-casing of a character sequence. -/
def pyLowerL (s : List Char) : List Char := s.map Char.toLower

/-- `re.search` of a plain substring pattern: does `pat` occur anywhere in
`s`? -/
def containsSub (pat : List Char) : List Char → Bool
  | [] => pat.isPrefixOf []
  | c :: t => pat.isPrefixOf (c :: t) || containsSub pat t

/-- Anchored match of `.*b`: a run of non-newline characters followed by
`b` occurring at the start of the remainder. -/
def segMatch (b : List Char) : List Char → Bool
  | [] => b.isPrefixOf []
  | c :: t => b.isPrefixOf (c :: t) || (c ≠ '\n' && segMatch b t)

/-- `re.search` of the pattern `a.*b`. -/
def searchDotStar (a b : List Char) : List Char → Bool
  | [] => a.isPrefixOf [] && segMatch b []
  | c :: t => (a.isPrefixOf (c :: t) && segMatch b ((c :: t).drop a.length))
      || searchDotStar a b t

/-- `re.search` of the pattern `api.key` (`.` is a single non-newline
character). -/
def searchApiKey : List Char → Bool
  | [] => false
  | c :: t =>
      (("api".data.isPrefixOf (c :: t)) &&
        (match (c :: t).drop 3 with
         | [] => false
         | d :: r => d ≠ '\n' && "key".data.isPrefixOf r))
      || searchApiKey t

/-- `classify_error` from `src/results.py`: ordered first-match-wins pattern
table over the lower-cased error text, defaulting to `UNKNOWN`. -/
def classify_error (error_text : String) : ErrorCategory :=
  let e := pyLowerL error_text.data
  if containsSub "not whitelisted".data e || containsSub "whitelist".data e then
    ErrorCategory.SERIALIZATION_ERROR
  else if containsSub "serializ".data e || containsSub "pickle".data e ||
      containsSub "marshal".data e then
    ErrorCategory.SERIALIZATION_ERROR
  else if containsSub "timeout".data e || containsSub "timed out".data e ||
      containsSub "deadline exceeded".data e then
    ErrorCategory.TIMEOUT
  else if containsSub "connection".data e || containsSub "network".data e ||
      containsSub "unreachable".data e || containsSub "refused".data e then
    ErrorCategory.CONNECTION_ERROR
  else if containsSub "auth".data e || searchApiKey e ||
      containsSub "unauthorized".data e || containsSub "forbidden".data e ||
      containsSub "401".data e || containsSub "403".data e then
    ErrorCategory.AUTH_ERROR
  else if containsSub "not loaded".data e || containsSub "not available".data e ||
      containsSub "not deployed".data e || searchDotStar "not found".data "model".data e then
    ErrorCategory.MODEL_NOT_LOADED
  else if containsSub "shape".data e || containsSub "dimension".data e ||
      containsSub "size mismatch".data e || searchDotStar "expected".data "got".data e then
    ErrorCategory.SHAPE_MISMATCH
  else if containsSub "nan".data e || containsSub "inf".data e ||
      containsSub "invalid value".data e || containsSub "value error".data e then
    ErrorCategory.VALUE_ERROR
  else if containsSub "import".data e || containsSub "module".data e ||
      containsSub "no module named".data e || containsSub "cannot import".data e then
    ErrorCategory.IMPORT_ERROR
  else
    ErrorCategory.UNKNOWN

/-- `determine_status` from `src/results.py` (the `duration_ms` argument is
accepted and ignored, as in the source; `if error_text:` is Python
truthiness, so an empty error string skips classification). -/
def determine_status (success : Bool) (duration_ms : Int)
    (error_text : Option String) : Status :=
  if success = false then
    match error_text with
    | some t =>
        if t ≠ "" then
          if classify_error t = ErrorCategory.MODEL_NOT_LOADED then Status.UNAVAILABLE
          else Status.FAILED
        else Status.FAILED
    | none => Status.FAILED
  else Status.OK

/-! ### The orchestrator's per-(model, scenario) update (`src/runner.py`) -/

/-- `TestResult` dataclass from `src/results.py` (the fields used by the
orchestrator; `timestamp` is the ISO string of the result's creation time). -/
structure TestResult where
  model : String
  scenario : String
  status : Status
  duration_ms : Int
  error_category : Option ErrorCategory := none
  details : Option String := none
  output : Option String := none
  timestamp : String
deriving DecidableEq, Repr

/-- `HistoryEntry` dataclass from `src/history.py` (all fields are stored in
their string form, as in the source). -/
structure HistoryEntry where
  timestamp : String
  model : String
  scenario : String
  status : String
  duration_ms : Int
  error_category : Option String := none
  details : Option String := none
  host : Option String := none
  user : Option String := none
deriving DecidableEq, Repr

/-- Lookup in an insertion-ordered Python dict (`d.get(k)`). -/
def dictGet {V : Type} : List (String × V) → String → Option V
  | [], _ => none
  | (k', v') :: t, k => if k' = k then some v' else dictGet t k

/-- Assignment `d[k] = v` in an insertion-ordered Python dict: replaces in
place when the key exists, else appends. -/
def dictSet {V : Type} : List (String × V) → String → V → List (String × V)
  | [], k, v => [(k, v)]
  | (k', v') :: t, k, v => if k' = k then (k, v) :: t else (k', v') :: dictSet t k v

/-- `MonitorRunner.update_model_status` from `src/runner.py`, as a pure state
transition: given the previously persisted `ModelStatus` (if any), the new
test result, and the update time `now` (`datetime.utcnow()`), it produces the
updated `ModelStatus` that is saved and the `HistoryEntry` that is appended.
The runner stamps both `last_checked` and (on a passing result)
`last_success` with `now`, and records `now` as the history entry's
timestamp. -/
def update_model_status (prior : Option ModelStatus) (model_name scenario_name : String)
    (result : TestResult) (nnsight_version : String) (now : String)
    (host user : String) : ModelStatus × HistoryEntry :=
  let status := match prior with
    | some s => s
    | none => ModelStatus.mk model_name now nnsight_version []
  let existing := dictGet status.scenarios scenario_name
  let carried := match existing with
    | some ex => ex.last_success
    | none => none
  let last_success := if result.status = Status.OK ∨ result.status = Status.SLOW
    then some now else carried
  let newScen : ScenarioResult :=
    ⟨result.status, result.duration_ms, now, last_success,
      result.error_category, result.details⟩
  let newStatus : ModelStatus :=
    ⟨status.model, now, nnsight_version, dictSet status.scenarios scenario_name newScen⟩
  let hist : HistoryEntry :=
    ⟨now ++ "Z", model_name, scenario_name, result.status.value, result.duration_ms,
      result.error_category.map ErrorCategory.value, result.details, some host, some user⟩
  (newStatus, hist)

/-! ### The history store (`src/history.py`)

The JSONL history file is modelled at line granularity: each line is either
a well-formed entry line (a stripped line that `HistoryEntry.from_json_line`
parses back to the entry it serializes — the JSON codec itself is the
`json` library) or a junk line (blank, or one that raises
`JSONDecodeError`/`KeyError`).  `append`/`append_many` write well-formed
entry lines. -/

/-- One line of the history file. -/
inductive HLine where
  | entry (e : HistoryEntry)
  | junk (raw : String)
deriving DecidableEq, Repr

/-- The well-formed entries of a history file, in file order. -/
def entriesOf (file : List HLine) : List HistoryEntry :=
  file.filterMap fun l => match l with
    | .entry e => some e
    | .junk _ => none

/-- `HistoryStore.append`: one entry line is appended to the file. -/
def HistoryStore.append (file : List HLine) (e : HistoryEntry) : List HLine :=
  file ++ [HLine.entry e]

/-- `HistoryStore.append_many`: one entry line per entry is appended. -/
def HistoryStore.append_many (file : List HLine) (es : List HistoryEntry) : List HLine :=
  file ++ es.map HLine.entry

/-- The filter test `if flt and field != flt: continue` from
`HistoryStore.load` (Python truthiness: `None` and the empty string disable
the filter). -/
def filterMismatch (flt : Option String) (field : String) : Bool :=
  match flt with
  | none => false
  | some f => decide (f ≠ "") && decide (field ≠ f)

/-- Whether a field matches an optional exact filter (the specification-side
reading of `load`'s optional filters: no filter, or an exact match). -/
def optMatches (flt : Option String) (field : String) : Bool :=
  match flt with
  | none => true
  | some f => decide (field = f)

/-- `HistoryStore.load` from `src/history.py`: junk lines are skipped, and a
well-formed entry is returned when its timestamp is not below the cutoff
string (`(utcnow() - timedelta(days)).isoformat()`, here the parameter
`cutoff_str`) and it passes the optional model/scenario filters. -/
def HistoryStore.load (file : List HLine) (cutoff_str : String)
    (model scenario : Option String) : List HistoryEntry :=
  file.filterMap fun l => match l with
    | .junk _ => none
    | .entry e =>
        if pyStrLt e.timestamp cutoff_str then none
        else if filterMismatch model e.model then none
        else if filterMismatch scenario e.scenario then none
        else some e

/-- The lines kept by `HistoryStore.prune`: the (stripped) entry lines whose
timestamp is at or after the cutoff; junk lines are never kept. -/
def pruneKept (file : List HLine) (cutoff_str : String) : List HLine :=
  file.filterMap fun l => match l with
    | .junk _ => none
    | .entry e => if pyStrLe cutoff_str e.timestamp then some (HLine.entry e) else none

/-- `HistoryStore.prune` from `src/history.py` as a state transition on the
file: returns the new file contents and the removal count.  The file is
rewritten (with only the kept entry lines) exactly when `removed > 0`. -/
def HistoryStore.prune (file : List HLine) (cutoff_str : String) : List HLine × Nat :=
  let removed := file.countP fun l => match l with
    | .entry e => pyStrLt e.timestamp cutoff_str
    | .junk _ => false
  (if removed > 0 then pruneKept file cutoff_str else file, removed)

/-! ### Model-name / filename transform (`src/results.py`)

Python `str.replace(old, new)` scans left to right and replaces
non-overlapping occurrences of `old`.  It is embedded with an explicit fuel
argument (one unit per character consumed) so that the definition is
structurally recursive; `pyReplace` instantiates the fuel with the string
length, which never runs out because every step consumes at least one
character.  All patterns used by the source are non-empty. -/

/-- Fuelled worker for Python `str.replace`. -/
def pyReplaceF (pat rep : List Char) : Nat → List Char → List Char
  | _, [] => []
  | 0, s => s
  | fuel + 1, c :: rest =>
    if pat ≠ [] ∧ pat.isPrefixOf (c :: rest) then
      rep ++ pyReplaceF pat rep fuel ((c :: rest).drop pat.length)
    else
      c :: pyReplaceF pat rep fuel rest

/-- Python `s.replace(pat, rep)` on character sequences. -/
def pyReplace (s pat rep : List Char) : List Char :=
  pyReplaceF pat rep s.length s

/-- `model_to_filename` from `src/results.py`:
`model_name.replace("/", "--").replace(":", "_") + ".json"`. -/
def model_to_filename (model_name : String) : String :=
  ⟨pyReplace (pyReplace model_name.data ['/'] ['-', '-']) [':'] ['_'] ++ ".json".data⟩

/-- `filename_to_model` from `src/results.py`:
`filename.replace(".json", "").replace("--", "/").replace("_", ":")`. -/
def filename_to_model (filename : String) : String :=
  ⟨pyReplace (pyReplace (pyReplace filename.data ".json".data []) ['-', '-'] ['/'])
    ['_'] [':']⟩

/-! ### Serialization of `ScenarioResult` / `ModelStatus` (`src/results.py`)

The `to_dict`/`from_dict` pair is embedded with the JSON-compatible dict as
a flat Lean structure.  Datetimes travel as ISO strings with a `"Z"`
appended on write and `rstrip("Z")` on read; `datetime.isoformat` /
`datetime.fromisoformat` themselves are the identity in this embedding
(a datetime is represented by its canonical ISO string).  `from_dict` is
`Option`-valued: `none` models the `ValueError` raised on an unknown enum
value.  `nnsight_version` and `scenarios` are read with
`data.get(..., default)` in the source; dicts produced by `to_dict` always
carry both fields, so they are plain fields here. -/

/-- Python `s.rstrip("Z")`: remove all trailing `'Z'` characters. -/
def pyRstripZ (s : String) : String := ⟨(s.data.reverse.dropWhile (· = 'Z')).reverse⟩

/-- Truthiness filter on an optional string (`if x:` treats `None` and `""`
the same). -/
def optTruthy (o : Option String) : Option String :=
  match o with
  | some s => if s = "" then none else some s
  | none => none

/-- The persisted dict form of a `ScenarioResult`. -/
structure ScenarioResultDict where
  status : String
  duration_ms : Int
  last_checked : String
  last_success : Option String
  error_category : Option String
  details : Option String
deriving DecidableEq, Repr

/-- The `details` truncation in `ScenarioResult.to_dict`: details longer
than 500 characters are cut and marked. -/
def truncateDetails (d : Option String) : Option String :=
  match d with
  | none => none
  | some s =>
      if s ≠ "" ∧ s.length > 500 then some (⟨s.data.take 500⟩ ++ "... [truncated]")
      else some s

/-- `ScenarioResult.to_dict` from `src/results.py`. -/
def ScenarioResult.to_dict (r : ScenarioResult) : ScenarioResultDict :=
  { status := r.status.value
    duration_ms := r.duration_ms
    last_checked := r.last_checked ++ "Z"
    last_success := r.last_success.map (· ++ "Z")
    error_category := r.error_category.map ErrorCategory.value
    details := truncateDetails r.details }

/-- `ScenarioResult.from_dict` from `src/results.py` (`none` = raised). -/
def ScenarioResult.from_dict (d : ScenarioResultDict) : Option ScenarioResult :=
  match Status.ofValue d.status with
  | none => none
  | some st =>
      let ls : Option String :=
        match optTruthy d.last_success with
        | some s => some (pyRstripZ s)
        | none => none
      match optTruthy d.error_category with
      | none => some ⟨st, d.duration_ms, pyRstripZ d.last_checked, ls, none, d.details⟩
      | some ec =>
          match ErrorCategory.ofValue ec with
          | none => none
          | some cat =>
              some ⟨st, d.duration_ms, pyRstripZ d.last_checked, ls, some cat, d.details⟩

/-- The persisted dict form of a `ModelStatus` (the derived `overall_status`
and `last_all_ok` fields are written but ignored on read). -/
structure ModelStatusDict where
  model : String
  last_updated : String
  nnsight_version : String
  overall_status : String
  last_all_ok : Option String
  scenarios : List (String × ScenarioResultDict)
deriving DecidableEq, Repr

/-- `ModelStatus.to_dict` from `src/results.py`. -/
def ModelStatus.to_dict (m : ModelStatus) : ModelStatusDict :=
  { model := m.model
    last_updated := m.last_updated ++ "Z"
    nnsight_version := m.nnsight_version
    overall_status := m.overall_status.value
    last_all_ok := m.last_all_ok.map (· ++ "Z")
    scenarios := m.scenarios.map (fun kv => (kv.1, ScenarioResult.to_dict kv.2)) }

/-- The scenario-map comprehension of `ModelStatus.from_dict`, with a raised
`ValueError` propagating (`none`). -/
def scenariosFromDict : List (String × ScenarioResultDict) →
    Option (List (String × ScenarioResult))
  | [] => some []
  | (k, v) :: t =>
      match ScenarioResult.from_dict v with
      | none => none
      | some r =>
          match scenariosFromDict t with
          | none => none
          | some rest => some ((k, r) :: rest)

/-- `ModelStatus.from_dict` from `src/results.py`. -/
def ModelStatus.from_dict (d : ModelStatusDict) : Option ModelStatus :=
  match scenariosFromDict d.scenarios with
  | none => none
  | some scs => some ⟨d.model, pyRstripZ d.last_updated, d.nnsight_version, scs⟩

/-! ### Eastern-time conversion and the daily summary (`src/history.py`)

`utc_to_eastern_hour` parses the stored UTC timestamp and converts it to
`ZoneInfo("America/New_York")` before formatting the date and hour.  The
timezone database is embedded as the post-2007 US DST rule that it contains
for these years: Eastern time is UTC-4 (EDT) from the second Sunday of March
at 07:00 UTC to the first Sunday of November at 06:00 UTC, and UTC-5 (EST)
otherwise.  Calendar arithmetic uses the standard civil-from-days /
days-from-civil algorithms on a day count with epoch 1970-01-01.
`datetime.fromisoformat` is embedded for the canonical
`YYYY-MM-DDTHH:MM:SS[.f{1,6\x7d]` shapes the monitor writes; any other string
is `none` and takes the source's `ValueError` fallback branch. -/

/-- A parsed naive datetime (the result of `datetime.fromisoformat`). -/
structure PyDateTime where
  year : Nat
  month : Nat
  day : Nat
  hour : Nat
  minute : Nat
  second : Nat
deriving DecidableEq, Repr

/-- Leap-year test of the proleptic Gregorian calendar. -/
def isLeap (y : Int) : Bool := y % 4 = 0 ∧ (y % 100 ≠ 0 ∨ y % 400 = 0)

/-- Days in a month. -/
def daysInMonth (y : Int) (m : Nat) : Nat :=
  if m = 2 then (if isLeap y then 29 else 28)
  else if m = 4 ∨ m = 6 ∨ m = 9 ∨ m = 11 then 30
  else 31

/-- Days since 1970-01-01 of a civil date (Howard Hinnant's algorithm). -/
def daysFromCivil (y : Int) (m d : Nat) : Int :=
  let y' : Int := if m ≤ 2 then y - 1 else y
  let era : Int := y'.ediv 400
  let yoe : Int := y' - era * 400
  let mp : Int := if m > 2 then (m : Int) - 3 else (m : Int) + 9
  let doy : Int := (153 * mp + 2).ediv 5 + (d : Int) - 1
  let doe : Int := yoe * 365 + yoe.ediv 4 - yoe.ediv 100 + doy
  era * 146097 + doe - 719468

/-- Civil date of a day count since 1970-01-01 (inverse of
`daysFromCivil`). -/
def civilFromDays (z : Int) : Int × Nat × Nat :=
  let z' := z + 719468
  let era := z'.ediv 146097
  let doe := z' - era * 146097
  let yoe := (doe - doe.ediv 1460 + doe.ediv 36524 - doe.ediv 146096).ediv 365
  let y := yoe + era * 400
  let doy := doe - (365 * yoe + yoe.ediv 4 - yoe.ediv 100)
  let mp := (5 * doy + 2).ediv 153
  let d := doy - (153 * mp + 2).ediv 5 + 1
  let m := if mp < 10 then mp + 3 else mp - 9
  (if m ≤ 2 then y + 1 else y, m.toNat, d.toNat)

/-- Hours since the epoch of a UTC datetime (minutes and seconds do not move
across an hour under a whole-hour zone offset). -/
def totalHours (dt : PyDateTime) : Int :=
  24 * daysFromCivil (dt.year : Int) dt.month dt.day + (dt.hour : Int)

/-- Day of week of a day count, `0` = Sunday (1970-01-01 was a Thursday). -/
def dayOfWeek (z : Int) : Int := (z + 4).emod 7

/-- Is US DST in effect for Eastern time at this UTC hour count?  Second
Sunday of March 07:00 UTC up to (excluding) first Sunday of November
06:00 UTC. -/
def isEasternDST (utcH : Int) : Bool :=
  let y := (civilFromDays (utcH.ediv 24)).1
  let marchFirst := daysFromCivil y 3 1
  let secondSunMarch := marchFirst + (7 - dayOfWeek marchFirst).emod 7 + 7
  let novFirst := daysFromCivil y 11 1
  let firstSunNov := novFirst + (7 - dayOfWeek novFirst).emod 7
  decide (24 * secondSunMarch + 7 ≤ utcH ∧ utcH < 24 * firstSunNov + 6)

/-- `dt.replace(tzinfo=timezone.utc).astimezone(ZoneInfo("America/New_York"))`:
shift by the Eastern offset (UTC-4 in DST, UTC-5 otherwise) and rebuild the
civil date. -/
def utcToEastern (dt : PyDateTime) : PyDateTime :=
  let h := totalHours dt
  let off : Int := if isEasternDST h then 4 else 5
  let h' := h - off
  let c := civilFromDays (h'.ediv 24)
  ⟨c.1.toNat, c.2.1, c.2.2, (h'.emod 24).toNat, dt.minute, dt.second⟩

/-- Decimal digit test. -/
def isDigit (c : Char) : Bool := decide ('0' ≤ c ∧ c ≤ '9')

/-- Value of a decimal digit character. -/
def digitVal (c : Char) : Nat := c.toNat - 48

/-- Optional fractional-seconds suffix accepted by `fromisoformat`. -/
def fracOk : List Char → Bool
  | [] => true
  | '.' :: fr => decide (1 ≤ fr.length ∧ fr.length ≤ 6) && fr.all isDigit
  | _ => false

/-- `datetime.fromisoformat` for the canonical
`YYYY-MM-DDTHH:MM:SS[.ffffff]` shape (with range validation); `none` models
the `ValueError` on anything else. -/
def fromisoformat (s : String) : Option PyDateTime :=
  match s.data with
  | y1 :: y2 :: y3 :: y4 :: c1 :: mo1 :: mo2 :: c2 :: d1 :: d2 :: c3 ::
      h1 :: h2 :: c4 :: mi1 :: mi2 :: c5 :: s1 :: s2 :: rest =>
      if c1 = '-' ∧ c2 = '-' ∧ c3 = 'T' ∧ c4 = ':' ∧ c5 = ':'
          ∧ ([y1, y2, y3, y4, mo1, mo2, d1, d2, h1, h2, mi1, mi2, s1, s2].all isDigit)
          ∧ fracOk rest then
        let year := 1000 * digitVal y1 + 100 * digitVal y2 + 10 * digitVal y3 + digitVal y4
        let month := 10 * digitVal mo1 + digitVal mo2
        let day := 10 * digitVal d1 + digitVal d2
        let hour := 10 * digitVal h1 + digitVal h2
        let minute := 10 * digitVal mi1 + digitVal mi2
        let second := 10 * digitVal s1 + digitVal s2
        if 1 ≤ month ∧ month ≤ 12 ∧ 1 ≤ day ∧ day ≤ daysInMonth (year : Int) month
            ∧ hour ≤ 23 ∧ minute ≤ 59 ∧ second ≤ 59 then
          some ⟨year, month, day, hour, minute, second⟩
        else none
      else none
  | _ => none

/-- Two-digit zero-padded decimal (months, days, and the halves of a
four-digit year are below 100). -/
def pad2str (n : Nat) : String :=
  if n < 10 then ⟨['0', Char.ofNat (48 + n)]⟩
  else ⟨[Char.ofNat (48 + n / 10), Char.ofNat (48 + n % 10)]⟩

/-- `%Y` for the four-digit years handled here. -/
def pad4str (n : Nat) : String := pad2str (n / 100) ++ pad2str (n % 100)

/-- `strftime("%Y-%m-%d")`. -/
def formatDate (y m d : Nat) : String := pad4str y ++ "-" ++ pad2str m ++ "-" ++ pad2str d

/-- Decimal form of the hour `0..23` (`f"{hour}"`, no padding). -/
def natToString (n : Nat) : String :=
  if n < 10 then ⟨[Char.ofNat (48 + n)]⟩
  else ⟨[Char.ofNat (48 + n / 10), Char.ofNat (48 + n % 10)]⟩

/-- `utc_to_eastern_hour` from `src/history.py`: `"YYYY-MM-DD-H"` in Eastern
time, with the `timestamp[:10] + "-0"` fallback on a parse error. -/
def utc_to_eastern_hour (timestamp : String) : String :=
  let ts := pyRstripZ timestamp
  match fromisoformat ts with
  | none => ⟨timestamp.data.take 10⟩ ++ "-0"
  | some dt =>
      let e := utcToEastern dt
      formatDate e.year e.month e.day ++ "-" ++ natToString e.hour

/-- Python `s.split("-")` on character sequences. -/
def splitDash : List Char → List (List Char)
  | [] => [[]]
  | c :: t =>
      match splitDash t with
      | [] => [[]]
      | h :: r => if c = '-' then [] :: h :: r else (c :: h) :: r

/-- `hour_key.split("-")[-1]` — the hour bucket key of an entry. -/
def hourPart (s : String) : String := ⟨(splitDash s.data).getLastD []⟩

/-- `hour_key[:10]` — the date key an entry is grouped under. -/
def dateKeyOf (e : HistoryEntry) : String :=
  ⟨(utc_to_eastern_hour e.timestamp).data.take 10⟩

/-- The hour bucket key an entry is placed in. -/
def hourKeyOf (e : HistoryEntry) : String := hourPart (utc_to_eastern_hour e.timestamp)

/-- The per-(date, model) accumulator of `get_daily_summary`. -/
structure ModelDay where
  scenarios : List (String × String)
  hours : List (String × List String)
deriving DecidableEq, Repr

/-- One grouping step of `get_daily_summary`'s first loop. -/
def addEntry (daily : List (String × List (String × ModelDay))) (e : HistoryEntry) :
    List (String × List (String × ModelDay)) :=
  let date := dateKeyOf e
  let hour := hourKeyOf e
  let models := (dictGet daily date).getD []
  let md := (dictGet models e.model).getD ⟨[], []⟩
  let md' : ModelDay :=
    ⟨dictSet md.scenarios e.scenario e.status,
      dictSet md.hours hour ((dictGet md.hours hour).getD [] ++ [e.status])⟩
  dictSet daily date (dictSet models e.model md')

/-- The grouping loop of `get_daily_summary` over the loaded entries. -/
def buildDaily (entries : List HistoryEntry) : List (String × List (String × ModelDay)) :=
  entries.foldl addEntry []

/-- One summarized (date, model) cell. -/
structure ModelDaySummary where
  status : Option String
  scenarios : List (String × String)
  hours : List (String × Option String)
deriving DecidableEq, Repr

/-- The per-model summary conversion of `get_daily_summary`. -/
def mdSummary (md : ModelDay) : ModelDaySummary :=
  ⟨worst_status (md.scenarios.map (fun kv => kv.2)), md.scenarios,
    md.hours.map (fun hkv => (hkv.1, worst_status hkv.2))⟩

/-- The summary-format conversion of `get_daily_summary`. -/
def summarize (daily : List (String × List (String × ModelDay))) :
    List (String × List (String × ModelDaySummary)) :=
  daily.map (fun kv => (kv.1, kv.2.map (fun mkv => (mkv.1, mdSummary mkv.2))))

/-- `HistoryStore.get_daily_summary` from `src/history.py`, over the list of
entries returned by `load(days)`. -/
def get_daily_summary (entries : List HistoryEntry) :
    List (String × List (String × ModelDaySummary)) :=
  summarize (buildDaily entries)

/-- The keys of an insertion-ordered dict. -/
def dictKeys {V : Type} (d : List (String × V)) : List String := d.map (fun kv => kv.1)

/-- `timestamp[:10]`, the UTC calendar date prefix of a stored timestamp. -/
def utcDate10 (s : String) : String := ⟨s.data.take 10⟩

/-! ## Shared lemmas about the worst-status fold -/

theorem Status.value_injective : Function.Injective Status.value := by
  intro a b h
  cases a <;> cases b <;> first | rfl | simp [Status.value] at h

theorem mem_map_value (s : Status) (l : List Status) :
    s.value ∈ l.map Status.value ↔ s ∈ l :=
  List.mem_map_of_injective Status.value_injective

theorem all_cold_map_value (l : List Status) :
    (l.map Status.value).all (· = "COLD") = l.all (· = Status.COLD) := by
  induction l with
  | nil => rfl
  | cons a t ih =>
    simp only [List.map_cons, List.all_cons, ih]
    cases a <;> simp [Status.value]

/-- Characterization of `worst_status` on lists of genuine statuses,
shared by the claims below. -/
theorem worst_status_map_value (l : List Status) :
    worst_status (l.map Status.value) =
      (if l = [] then none
       else if Status.UNAVAILABLE ∈ l then some "UNAVAILABLE"
       else if Status.FAILED ∈ l then some "FAILED"
       else if Status.DEGRADED ∈ l then some "DEGRADED"
       else if Status.SLOW ∈ l then some "SLOW"
       else if l.all (· = Status.COLD) then some "COLD"
       else some "OK") := by
  rcases l with _ | ⟨a, t⟩
  · rfl
  · have hU : ("UNAVAILABLE" ∈ (a :: t).map Status.value) ↔ Status.UNAVAILABLE ∈ a :: t :=
      mem_map_value Status.UNAVAILABLE (a :: t)
    have hF : ("FAILED" ∈ (a :: t).map Status.value) ↔ Status.FAILED ∈ a :: t :=
      mem_map_value Status.FAILED (a :: t)
    have hD : ("DEGRADED" ∈ (a :: t).map Status.value) ↔ Status.DEGRADED ∈ a :: t :=
      mem_map_value Status.DEGRADED (a :: t)
    have hS : ("SLOW" ∈ (a :: t).map Status.value) ↔ Status.SLOW ∈ a :: t :=
      mem_map_value Status.SLOW (a :: t)
    have hall : ((a :: t).map Status.value).all (· = "COLD") = (a :: t).all (· = Status.COLD) :=
      all_cold_map_value (a :: t)
    have hne : ((a :: t).map Status.value).isEmpty = false := rfl
    simp only [worst_status, hU, hF, hD, hS, hall, hne]
    simp

/-- C1: for every multiset of statuses, the worst-status fold returns
`UNAVAILABLE` if any input is `UNAVAILABLE`, else `FAILED` if any input is
`FAILED`, else `DEGRADED` if any is `DEGRADED`, else `SLOW` if any is `SLOW`,
else `COLD` if every input is `COLD`, else `OK`; the empty multiset folds to
the distinct no-data value `none`. -/
theorem worst_status_fold_spec (l : List Status) :
    worst_status (l.map Status.value) =
      (if l = [] then none
       else if Status.UNAVAILABLE ∈ l then some "UNAVAILABLE"
       else if Status.FAILED ∈ l then some "FAILED"
       else if Status.DEGRADED ∈ l then some "DEGRADED"
       else if Status.SLOW ∈ l then some "SLOW"
       else if ∀ x ∈ l, x = Status.COLD then some "COLD"
       else some "OK") := by
  rw [worst_status_map_value]
  rcases l with _ | ⟨a, t⟩
  · rfl
  · simp [List.all_eq_true]

/-- C2: on every non-empty multiset of per-scenario statuses, the live fold
`ModelStatus.overall_status` and the historical-rollup fold `worst_status`
agree: folding the scenarios' status strings with `worst_status` yields
exactly the string value of `overall_status`. -/
theorem overall_status_agrees_worst_status (m : ModelStatus) (h : m.scenarios ≠ []) :
    worst_status ((m.scenarios.map (fun kv => kv.2.status)).map Status.value)
      = some (Status.value m.overall_status) := by
  rw [worst_status_map_value]
  unfold ModelStatus.overall_status
  have hne : m.scenarios.map (fun kv => kv.2.status) ≠ [] := by
    simpa [List.map_eq_nil_iff] using h
  have hemp : m.scenarios.isEmpty = false := by
    simpa [List.isEmpty_iff] using h
  simp only [hemp, Bool.false_eq_true, if_false, if_neg hne]
  split_ifs <;> rfl

/-- Closed witness for C2 at a concrete two-scenario record. -/
theorem overall_status_agrees_worst_status_witness :
    worst_status (((ModelStatus.mk "openai-community/gpt2" "2024-06-10T12:00:00" "0.4.5"
        [("allocation", ⟨Status.OK, 120, "2024-06-10T12:00:00", some "2024-06-10T12:00:00",
            none, none⟩),
         ("generation", ⟨Status.FAILED, 50, "2024-06-10T12:00:05", none,
            some ErrorCategory.TIMEOUT, some "timed out"⟩)]).scenarios.map
        (fun kv => kv.2.status)).map Status.value)
      = some (Status.value (ModelStatus.mk "openai-community/gpt2" "2024-06-10T12:00:00" "0.4.5"
        [("allocation", ⟨Status.OK, 120, "2024-06-10T12:00:00", some "2024-06-10T12:00:00",
            none, none⟩),
         ("generation", ⟨Status.FAILED, 50, "2024-06-10T12:00:05", none,
            some ErrorCategory.TIMEOUT, some "timed out"⟩)]).overall_status) :=
  overall_status_agrees_worst_status _ (by decide)

/-! ## Order lemmas for the Python string comparison -/

theorem charToNat_inj {a b : Char} (h : a.toNat = b.toNat) : a = b :=
  Char.ext (UInt32.toNat.inj h)

theorem pyCharLt_trans {a b c : Char} (h1 : pyCharLt a b = true)
    (h2 : pyCharLt b c = true) : pyCharLt a c = true := by
  simp only [pyCharLt, decide_eq_true_eq] at h1 h2 ⊢
  omega

theorem pyCharLt_ne {a b : Char} (h : pyCharLt a b = true) : a ≠ b := by
  intro he
  subst he
  simp [pyCharLt] at h

theorem pyStrLtL_irrefl (a : List Char) : pyStrLtL a a = false := by
  induction a with
  | nil => rfl
  | cons c t ih => simp [pyStrLtL, ih]

theorem pyStrLtL_trans {a b c : List Char} (h1 : pyStrLtL a b = true)
    (h2 : pyStrLtL b c = true) : pyStrLtL a c = true := by
  induction a generalizing b c with
  | nil =>
    cases b with
    | nil => simp [pyStrLtL] at h1
    | cons bh bt =>
      cases c with
      | nil => simp [pyStrLtL] at h2
      | cons ch ct => simp [pyStrLtL]
  | cons ah as' ih =>
    cases b with
    | nil => simp [pyStrLtL] at h1
    | cons bh bt =>
      cases c with
      | nil => simp [pyStrLtL] at h2
      | cons ch ct =>
        simp only [pyStrLtL] at h1 h2 ⊢
        by_cases hab : ah = bh
        · subst hab
          rw [if_pos rfl] at h1
          by_cases hbc : ah = ch
          · subst hbc
            rw [if_pos rfl] at h2 ⊢
            exact ih h1 h2
          · rw [if_neg hbc] at h2 ⊢
            exact h2
        · rw [if_neg hab] at h1
          by_cases hbc : bh = ch
          · subst hbc
            rw [if_neg hab]
            exact h1
          · rw [if_neg hbc] at h2
            have hac : pyCharLt ah ch = true := pyCharLt_trans h1 h2
            rw [if_neg (pyCharLt_ne hac)]
            exact hac

theorem pyStrLtL_connex {a b : List Char} (h : pyStrLtL a b = false) :
    a = b ∨ pyStrLtL b a = true := by
  induction a generalizing b with
  | nil =>
    cases b with
    | nil => exact Or.inl rfl
    | cons bh bt => simp [pyStrLtL] at h
  | cons ah as' ih =>
    cases b with
    | nil => exact Or.inr rfl
    | cons bh bt =>
      simp only [pyStrLtL] at h ⊢
      by_cases hab : ah = bh
      · subst hab
        rw [if_pos rfl] at h
        rcases ih h with heq | hlt
        · exact Or.inl (by rw [heq])
        · refine Or.inr ?_
          show pyStrLtL (ah :: bt) (ah :: as') = true
          simp only [pyStrLtL]
          simpa using hlt
      · rw [if_neg hab] at h
        have hba : pyCharLt bh ah = true := by
          simp only [pyCharLt, decide_eq_true_eq, decide_eq_false_iff_not] at h ⊢
          have hne : ah.toNat ≠ bh.toNat := fun he => hab (charToNat_inj he)
          omega
        refine Or.inr ?_
        show pyStrLtL (bh :: bt) (ah :: as') = true
        simp only [pyStrLtL]
        rw [if_neg (fun he => hab he.symm)]
        exact hba

theorem pyStrLt_asymm {a b : String} (h : pyStrLt a b = true) :
    pyStrLt b a = false := by
  cases hba : pyStrLt b a with
  | false => rfl
  | true =>
    have := pyStrLtL_trans (a := a.data) h hba
    rw [pyStrLtL_irrefl] at this
    exact absurd this (by simp)

theorem pyStrLe_refl (a : String) : pyStrLe a a = true := by
  simp [pyStrLe, pyStrLt, pyStrLtL_irrefl]

theorem pyStrLe_trans {a b c : String} (h1 : pyStrLe a b = true)
    (h2 : pyStrLe b c = true) : pyStrLe a c = true := by
  simp only [pyStrLe, pyStrLt, Bool.not_eq_true'] at h1 h2 ⊢
  cases hca : pyStrLtL c.data a.data with
  | false => rfl
  | true =>
    exfalso
    rcases pyStrLtL_connex (a := c.data) (b := b.data) h2 with heq | hlt
    · have hba : pyStrLtL b.data a.data = true := by
        rw [← heq]; exact hca
      rw [h1] at hba
      exact absurd hba (by simp)
    · have hba : pyStrLtL b.data a.data = true := pyStrLtL_trans hlt hca
      rw [h1] at hba
      exact absurd hba (by simp)

theorem pyMinStr_le_left (a b : String) : pyStrLe (pyMinStr a b) a = true := by
  unfold pyMinStr
  cases hba : pyStrLt b a with
  | false => simpa using pyStrLe_refl a
  | true => simp [pyStrLe, pyStrLt_asymm hba]

theorem pyMinStr_le_right (a b : String) : pyStrLe (pyMinStr a b) b = true := by
  unfold pyMinStr
  cases hba : pyStrLt b a with
  | false => simp [pyStrLe, hba]
  | true => simpa using pyStrLe_refl b

theorem pyMinStr_mem (a b : String) : pyMinStr a b = a ∨ pyMinStr a b = b := by
  unfold pyMinStr
  cases pyStrLt b a <;> simp

theorem listMin_mem (x : String) (xs : List String) : listMin x xs ∈ x :: xs := by
  unfold listMin
  induction xs generalizing x with
  | nil => simp
  | cons y ys ih =>
    simp only [List.foldl_cons]
    have h := ih (pyMinStr x y)
    rcases List.mem_cons.mp h with heq | hmem
    · rw [heq]
      rcases pyMinStr_mem x y with h' | h' <;> simp [h']
    · simp [List.mem_cons, Or.inr (Or.inr hmem)]

theorem listMin_le (x : String) (xs : List String) :
    ∀ u ∈ x :: xs, pyStrLe (listMin x xs) u = true := by
  unfold listMin
  induction xs generalizing x with
  | nil =>
    intro u hu
    rw [List.mem_singleton.mp hu]
    simpa using pyStrLe_refl x
  | cons y ys ih =>
    intro u hu
    simp only [List.foldl_cons]
    have hle : pyStrLe (List.foldl pyMinStr (pyMinStr x y) ys) (pyMinStr x y) = true :=
      ih (pyMinStr x y) (pyMinStr x y) (List.mem_cons_self _ _)
    rcases List.mem_cons.mp hu with heq | hu'
    · rw [heq]
      exact pyStrLe_trans hle (pyMinStr_le_left x y)
    · rcases List.mem_cons.mp hu' with heq | hu''
      · rw [heq]
        exact pyStrLe_trans hle (pyMinStr_le_right x y)
      · exact ih (pyMinStr x y) u (List.mem_cons_of_mem _ hu'')

/-! ## `last_all_ok` -/

theorem length_filterMap_eq_iff {α β : Type} (f : α → Option β) (l : List α) :
    (l.filterMap f).length = l.length ↔ ∀ a ∈ l, f a ≠ none := by
  induction l with
  | nil => simp
  | cons a t ih =>
    cases hfa : f a with
    | none =>
      simp only [List.filterMap_cons, hfa, List.length_cons]
      constructor
      · intro h
        exfalso
        have hle := List.length_filterMap_le f t
        omega
      · intro h
        exact absurd hfa (h a (List.mem_cons_self a t))
    | some b =>
      simp only [List.filterMap_cons, hfa, List.length_cons, Nat.add_right_cancel_iff, ih]
      constructor
      · intro h x hx
        rcases List.mem_cons.mp hx with rfl | hx'
        · simp [hfa]
        · exact h x hx'
      · intro h x hx
        exact h x (List.mem_cons_of_mem _ hx)

/-- C6: `last_all_ok` is `none` exactly when the scenario map is empty or
some scenario's `last_success` is null; when the map is non-empty and every
scenario has a non-null `last_success`, `last_all_ok` is the minimum of those
`last_success` timestamps (an element of them that is `<=` all of them). -/
theorem last_all_ok_spec (m : ModelStatus) :
    (m.last_all_ok = none ↔
      m.scenarios = [] ∨ ∃ kv ∈ m.scenarios, kv.2.last_success = none)
    ∧ ((∀ kv ∈ m.scenarios, kv.2.last_success ≠ none) → m.scenarios ≠ [] →
        ∃ t, m.last_all_ok = some t ∧
          t ∈ m.scenarios.filterMap (fun kv => kv.2.last_success) ∧
          ∀ u ∈ m.scenarios.filterMap (fun kv => kv.2.last_success),
            pyStrLe t u = true) := by
  constructor
  · by_cases hnil : m.scenarios = []
    · simp [ModelStatus.last_all_ok, hnil]
    · have hemp : m.scenarios.isEmpty = false := by
        simpa [List.isEmpty_iff] using hnil
      by_cases hex : ∃ kv ∈ m.scenarios, kv.2.last_success = none
      · have hlt : (m.scenarios.filterMap (fun kv => kv.2.last_success)).length ≠
            m.scenarios.length := by
          intro heq
          obtain ⟨kv, hkv, hn⟩ := hex
          exact (length_filterMap_eq_iff _ _).1 heq kv hkv hn
        simp [ModelStatus.last_all_ok, hemp, hlt, hex]
      · have hlen : (m.scenarios.filterMap (fun kv => kv.2.last_success)).length =
            m.scenarios.length := by
          refine (length_filterMap_eq_iff _ _).2 ?_
          intro kv hkv hn
          exact hex ⟨kv, hkv, hn⟩
        rcases hsu : m.scenarios.filterMap (fun kv => kv.2.last_success) with _ | ⟨x, xs⟩
        · rw [hsu] at hlen
          exact absurd (List.length_eq_zero.mp hlen.symm) hnil
        · rw [hsu] at hlen
          simp [ModelStatus.last_all_ok, hemp, hsu, hlen, hex, hnil]
  · intro hall hnil
    have hemp : m.scenarios.isEmpty = false := by
      simpa [List.isEmpty_iff] using hnil
    have hlen : (m.scenarios.filterMap (fun kv => kv.2.last_success)).length =
        m.scenarios.length :=
      (length_filterMap_eq_iff _ _).2 hall
    rcases hsu : m.scenarios.filterMap (fun kv => kv.2.last_success) with _ | ⟨x, xs⟩
    · rw [hsu] at hlen
      exact absurd (List.length_eq_zero.mp hlen.symm) hnil
    · rw [hsu] at hlen
      refine ⟨listMin x xs, ?_, ?_, ?_⟩
      · simp [ModelStatus.last_all_ok, hemp, hsu, hlen]
      · rw [hsu]
        exact listMin_mem x xs
      · rw [hsu]
        exact listMin_le x xs

/-- Closed witness for C6 at a concrete two-scenario record: both scenarios
have a non-null `last_success` and `last_all_ok` is their minimum. -/
theorem last_all_ok_spec_witness :
    ∃ t, (ModelStatus.mk "meta-llama/Llama-3.1-8B" "2024-06-11T09:00:00" "0.4.5"
        [("allocation", ⟨Status.OK, 120, "2024-06-11T09:00:00", some "2024-06-11T09:00:00",
            none, none⟩),
         ("generation", ⟨Status.OK, 80, "2024-06-11T09:00:05", some "2024-06-10T08:00:00",
            none, none⟩)]).last_all_ok = some t ∧
      t ∈ (ModelStatus.mk "meta-llama/Llama-3.1-8B" "2024-06-11T09:00:00" "0.4.5"
        [("allocation", ⟨Status.OK, 120, "2024-06-11T09:00:00", some "2024-06-11T09:00:00",
            none, none⟩),
         ("generation", ⟨Status.OK, 80, "2024-06-11T09:00:05", some "2024-06-10T08:00:00",
            none, none⟩)]).scenarios.filterMap (fun kv => kv.2.last_success) ∧
      ∀ u ∈ (ModelStatus.mk "meta-llama/Llama-3.1-8B" "2024-06-11T09:00:00" "0.4.5"
        [("allocation", ⟨Status.OK, 120, "2024-06-11T09:00:00", some "2024-06-11T09:00:00",
            none, none⟩),
         ("generation", ⟨Status.OK, 80, "2024-06-11T09:00:05", some "2024-06-10T08:00:00",
            none, none⟩)]).scenarios.filterMap (fun kv => kv.2.last_success),
        pyStrLe t u = true :=
  (last_all_ok_spec _).2 (by decide) (by decide)

/-! ## `determine_status` -/

theorem classify_error_empty : classify_error "" = ErrorCategory.UNKNOWN := by decide

/-- C8: the test-time status mapping of `determine_status`: a failed outcome
whose error text classifies as model-not-loaded maps to `UNAVAILABLE`, any
other failed outcome maps to `FAILED`, a successful outcome maps to `OK`,
and no input at all maps to `SLOW`. -/
theorem determine_status_spec (d : Int) (e : Option String) :
    (determine_status true d e = Status.OK)
    ∧ (∀ t, e = some t → classify_error t = ErrorCategory.MODEL_NOT_LOADED →
        determine_status false d e = Status.UNAVAILABLE)
    ∧ ((∀ t, e = some t → classify_error t ≠ ErrorCategory.MODEL_NOT_LOADED) →
        determine_status false d e = Status.FAILED)
    ∧ (∀ s, determine_status s d e ≠ Status.SLOW) := by
  refine ⟨rfl, ?_, ?_, ?_⟩
  · intro t het hcl
    subst het
    have hne : t ≠ "" := by
      intro h0
      rw [h0, classify_error_empty] at hcl
      exact absurd hcl (by simp)
    simp [determine_status, hne, hcl]
  · intro hno
    cases e with
    | none => rfl
    | some t =>
      have := hno t rfl
      simp [determine_status, this]
  · intro s
    cases s with
    | true => simp [determine_status]
    | false =>
      cases e with
      | none => simp [determine_status]
      | some t =>
        simp only [determine_status]
        split_ifs <;> simp

/-- Closed witness for C8: a failure whose error text classifies as
model-not-loaded yields `UNAVAILABLE`, and a failure with an unclassifiable
error yields `FAILED`. -/
theorem determine_status_spec_witness :
    determine_status false 250 (some "Model gpt2 is not loaded on the service")
        = Status.UNAVAILABLE
    ∧ determine_status false 250 (some "totally novel message xyz") = Status.FAILED :=
  ⟨(determine_status_spec 250 (some "Model gpt2 is not loaded on the service")).2.1 _ rfl
      (by decide),
   (determine_status_spec 250 (some "totally novel message xyz")).2.2.1
      (by intro t het; cases het; decide)⟩

/-! ## The orchestrator update -/

theorem dictGet_dictSet {V : Type} (d : List (String × V)) (k : String) (v : V) :
    dictGet (dictSet d k v) k = some v := by
  induction d with
  | nil => simp [dictGet, dictSet]
  | cons kv t ih =>
    obtain ⟨k', v'⟩ := kv
    by_cases h : k' = k
    · simp [dictGet, dictSet, h]
    · simp [dictGet, dictSet, h, ih]

/-- C7: applying a new test outcome to a (model, scenario) pair carries the
stored `last_success` forward unchanged from the prior record (null when
there was none) unless the outcome's status is `OK` or `SLOW`, in which case
it is set to the timestamp `now` that the orchestrator stamps on the outcome;
and, provided the prior record's `last_success` was not in the future of
`now`, the updated `ScenarioResult` has `last_success` null or `<=` its
`last_checked`. -/
theorem update_model_status_spec (prior : Option ModelStatus)
    (mn sn : String) (result : TestResult) (ver now host user : String)
    (hprior : ∀ s, prior = some s → ∀ ex, dictGet s.scenarios sn = some ex →
      ∀ ts, ex.last_success = some ts → pyStrLe ts now = true) :
    ∃ r : ScenarioResult,
      dictGet (update_model_status prior mn sn result ver now host user).1.scenarios sn
          = some r
      ∧ r.last_checked = now
      ∧ r.last_success =
          (if result.status = Status.OK ∨ result.status = Status.SLOW then some now
           else match prior with
             | none => none
             | some s => match dictGet s.scenarios sn with
               | none => none
               | some ex => ex.last_success)
      ∧ (r.last_success = none ∨
          ∃ ts, r.last_success = some ts ∧ pyStrLe ts r.last_checked = true) := by
  simp only [update_model_status]
  refine ⟨_, dictGet_dictSet _ _ _, rfl, ?_, ?_⟩
  · cases prior with
    | none =>
      by_cases hpass : result.status = Status.OK ∨ result.status = Status.SLOW
      · simp [hpass]
      · simp [hpass, dictGet]
    | some s =>
      by_cases hpass : result.status = Status.OK ∨ result.status = Status.SLOW
      · simp [hpass]
      · simp only [if_neg hpass]
        cases dictGet s.scenarios sn <;> rfl
  · by_cases hpass : result.status = Status.OK ∨ result.status = Status.SLOW
    · refine Or.inr ⟨now, ?_, pyStrLe_refl now⟩
      simp [hpass]
    · simp only [if_neg hpass]
      cases hp : prior with
      | none => exact Or.inl (by simp [dictGet])
      | some s =>
        cases hex : dictGet s.scenarios sn with
        | none => simp [hex]
        | some ex =>
          cases hts : ex.last_success with
          | none => simp [hex, hts]
          | some ts =>
            refine Or.inr ⟨ts, ?_, hprior s hp ex hex ts hts⟩
            simp [hex, hts]

/-- Closed witness for C7: a first-ever `OK` outcome for a fresh model yields
a scenario record with `last_success = last_checked = now`. -/
theorem update_model_status_spec_witness :
    ∃ r : ScenarioResult,
      dictGet (update_model_status none "openai-community/gpt2" "generation"
          ⟨"openai-community/gpt2", "generation", Status.OK, 310, none, none, none,
            "2024-06-11T09:00:00"⟩ "0.4.5" "2024-06-11T09:00:02" "host1" "user1").1.scenarios
          "generation" = some r
      ∧ r.last_checked = "2024-06-11T09:00:02"
      ∧ r.last_success =
          (if Status.OK = Status.OK ∨ Status.OK = Status.SLOW
           then some "2024-06-11T09:00:02"
           else match (none : Option ModelStatus) with
             | none => none
             | some s => match dictGet s.scenarios "generation" with
               | none => none
               | some ex => ex.last_success)
      ∧ (r.last_success = none ∨
          ∃ ts, r.last_success = some ts ∧ pyStrLe ts r.last_checked = true) :=
  update_model_status_spec none "openai-community/gpt2" "generation"
    ⟨"openai-community/gpt2", "generation", Status.OK, 310, none, none, none,
      "2024-06-11T09:00:00"⟩ "0.4.5" "2024-06-11T09:00:02" "host1" "user1"
    (fun s h => nomatch h)

/-! ## History store: load and prune -/

/-- C9: history append-then-load is consistent — appending N well-formed
entries to an empty store and loading with a cutoff at or before all their
timestamps (and no filters) returns exactly those N entries — and, in
general, load returns precisely the stored well-formed entries whose
timestamp is at or after the cutoff and which match the optional exact model
and scenario filters. -/
theorem history_load_spec (es : List HistoryEntry) (cutoff : String)
    (file : List HLine) (m s : Option String)
    (hes : ∀ e ∈ es, pyStrLe cutoff e.timestamp = true)
    (hm : m ≠ some "") (hs : s ≠ some "") :
    HistoryStore.load (HistoryStore.append_many [] es) cutoff none none = es
    ∧ HistoryStore.load file cutoff m s =
        (entriesOf file).filter
          (fun e => pyStrLe cutoff e.timestamp
            && optMatches m e.model && optMatches s e.scenario) := by
  have hfm : ∀ field, filterMismatch m field = !optMatches m field := by
    intro field
    cases m with
    | none => rfl
    | some f =>
      have hf : f ≠ "" := fun h0 => hm (by rw [h0])
      simp [filterMismatch, optMatches, hf, eq_comm]
  have hfs : ∀ field, filterMismatch s field = !optMatches s field := by
    intro field
    cases s with
    | none => rfl
    | some f =>
      have hf : f ≠ "" := fun h0 => hs (by rw [h0])
      simp [filterMismatch, optMatches, hf, eq_comm]
  constructor
  · induction es with
    | nil => rfl
    | cons e t ih =>
      have he : pyStrLt e.timestamp cutoff = false := by
        have h1 := hes e (List.mem_cons_self e t)
        simpa [pyStrLe, Bool.not_eq_true'] using h1
      have ht := ih (fun x hx => hes x (List.mem_cons_of_mem e hx))
      simp only [HistoryStore.append_many, List.nil_append] at ht ⊢
      simp only [List.map_cons, HistoryStore.load, List.filterMap_cons, filterMismatch,
        Bool.false_eq_true, if_false] at ht ⊢
      simp only [he, Bool.false_eq_true, if_false]
      rw [ht]
  · induction file with
    | nil => rfl
    | cons l t ih =>
      cases l with
      | junk r =>
        simp only [HistoryStore.load, entriesOf, List.filterMap_cons] at ih ⊢
        exact ih
      | entry e =>
        simp only [HistoryStore.load, entriesOf, List.filterMap_cons,
          List.filter_cons] at ih ⊢
        rw [hfm e.model, hfs e.scenario]
        cases hb1 : pyStrLt e.timestamp cutoff with
        | true => simp [pyStrLe, hb1, ih]
        | false =>
          cases hb2 : optMatches m e.model with
          | false => simp [pyStrLe, hb1, hb2, ih]
          | true =>
            cases hb3 : optMatches s e.scenario with
            | false => simp [pyStrLe, hb1, hb2, hb3, ih]
            | true => simp [pyStrLe, hb1, hb2, hb3, ih]

/-- Closed witness for C9: two appended entries are both returned by a load
whose window covers them, and a filtered load of a file with a junk line
returns exactly the matching entries. -/
theorem history_load_spec_witness :
    HistoryStore.load (HistoryStore.append_many []
        [⟨"2024-06-10T12:00:00Z", "gpt2", "generation", "OK", 100, none, none, none, none⟩,
         ⟨"2024-06-11T01:00:00Z", "gpt2", "allocation", "FAILED", 50, some "TIMEOUT",
            none, none, none⟩]) "2024-06-01T00:00:00" none none =
      [⟨"2024-06-10T12:00:00Z", "gpt2", "generation", "OK", 100, none, none, none, none⟩,
       ⟨"2024-06-11T01:00:00Z", "gpt2", "allocation", "FAILED", 50, some "TIMEOUT",
          none, none, none⟩]
    ∧ HistoryStore.load
        [HLine.entry ⟨"2024-06-10T12:00:00Z", "gpt2", "generation", "OK", 100,
            none, none, none, none⟩,
         HLine.junk "not json at all",
         HLine.entry ⟨"2024-06-11T01:00:00Z", "llama", "generation", "OK", 70,
            none, none, none, none⟩]
        "2024-06-01T00:00:00" (some "gpt2") (some "generation") =
      (entriesOf
        [HLine.entry ⟨"2024-06-10T12:00:00Z", "gpt2", "generation", "OK", 100,
            none, none, none, none⟩,
         HLine.junk "not json at all",
         HLine.entry ⟨"2024-06-11T01:00:00Z", "llama", "generation", "OK", 70,
            none, none, none, none⟩]).filter
        (fun e => pyStrLe "2024-06-01T00:00:00" e.timestamp
          && optMatches (some "gpt2") e.model
          && optMatches (some "generation") e.scenario) :=
  history_load_spec
    [⟨"2024-06-10T12:00:00Z", "gpt2", "generation", "OK", 100, none, none, none, none⟩,
     ⟨"2024-06-11T01:00:00Z", "gpt2", "allocation", "FAILED", 50, some "TIMEOUT",
        none, none, none⟩]
    "2024-06-01T00:00:00"
    [HLine.entry ⟨"2024-06-10T12:00:00Z", "gpt2", "generation", "OK", 100,
        none, none, none, none⟩,
     HLine.junk "not json at all",
     HLine.entry ⟨"2024-06-11T01:00:00Z", "llama", "generation", "OK", 70,
        none, none, none, none⟩]
    (some "gpt2") (some "generation")
    (by decide) (by decide) (by decide)

theorem pruneKept_eq_filter (file : List HLine) (cutoff : String) :
    pruneKept file cutoff = file.filter (fun l => match l with
      | HLine.entry e => pyStrLe cutoff e.timestamp
      | HLine.junk _ => false) := by
  induction file with
  | nil => rfl
  | cons l t ih =>
    simp only [pruneKept] at ih ⊢
    cases l with
    | junk r => simpa [List.filterMap_cons, List.filter_cons] using ih
    | entry e =>
      cases hts : pyStrLe cutoff e.timestamp with
      | true => simp [List.filterMap_cons, List.filter_cons, hts, ih]
      | false => simp [List.filterMap_cons, List.filter_cons, hts, ih]

/-- C10: `prune` counts only well-formed entries older than the cutoff
(junk lines are never counted); when no well-formed entry is old enough the
file is left unchanged; and when the count is positive the rewritten file
consists of exactly the kept well-formed entry lines, with junk lines
dropped. -/
theorem history_prune_spec (file : List HLine) (cutoff : String) :
    (HistoryStore.prune file cutoff).2 =
        ((entriesOf file).filter (fun e => pyStrLt e.timestamp cutoff)).length
    ∧ ((HistoryStore.prune file cutoff).2 = 0 → (HistoryStore.prune file cutoff).1 = file)
    ∧ (0 < (HistoryStore.prune file cutoff).2 →
        (HistoryStore.prune file cutoff).1 =
          file.filter (fun l => match l with
            | HLine.entry e => pyStrLe cutoff e.timestamp
            | HLine.junk _ => false)) := by
  refine ⟨?_, ?_, ?_⟩
  · show (file.countP _) = _
    induction file with
    | nil => rfl
    | cons l t ih =>
      cases l with
      | junk r => simpa [entriesOf, List.countP_cons, List.filterMap_cons] using ih
      | entry e =>
        by_cases hts : pyStrLt e.timestamp cutoff = true
        · simp [entriesOf, List.countP_cons, List.filterMap_cons, List.filter_cons, hts, ih]
        · have hts' : pyStrLt e.timestamp cutoff = false := by simpa using hts
          simp [entriesOf, List.countP_cons, List.filterMap_cons, List.filter_cons, hts', ih]
  · intro h0
    simp only [HistoryStore.prune] at h0 ⊢
    simp only [h0]
    rfl
  · intro hpos
    simp only [HistoryStore.prune] at hpos ⊢
    have : (file.countP fun l => match l with
        | HLine.entry e => pyStrLt e.timestamp cutoff
        | HLine.junk _ => false) > 0 := hpos
    simp only [if_pos this]
    exact pruneKept_eq_filter file cutoff

/-- Closed witness for C10: a file whose only well-formed entry is newer
than the cutoff is left unchanged by `prune` — its junk line included. -/
theorem history_prune_spec_witness :
    (HistoryStore.prune
      [HLine.entry ⟨"2024-06-10T12:00:00Z", "gpt2", "generation", "OK", 100,
          none, none, none, none⟩,
       HLine.junk "  garbage line  "] "2024-06-01T00:00:00").1 =
      [HLine.entry ⟨"2024-06-10T12:00:00Z", "gpt2", "generation", "OK", 100,
          none, none, none, none⟩,
       HLine.junk "  garbage line  "] :=
  (history_prune_spec
    [HLine.entry ⟨"2024-06-10T12:00:00Z", "gpt2", "generation", "OK", 100,
        none, none, none, none⟩,
     HLine.junk "  garbage line  "] "2024-06-01T00:00:00").2.1 (by decide)

/-! ## The filename transform -/

/-- Single-character replacement, the canonical form of
`s.replace(c, rep)`. -/
def mapSingle (c : Char) (rep : List Char) : List Char → List Char
  | [] => []
  | x :: t => (if x = c then rep else [x]) ++ mapSingle c rep t

/-- The combined effect of `.replace("/", "--").replace(":", "_")` on a
model name. -/
def encC4 : List Char → List Char
  | [] => []
  | c :: t => (if c = '/' then ['-', '-'] else if c = ':' then ['_'] else [c]) ++ encC4 t

/-- The intermediate form after decoding `--` back to `/`. -/
def encC4' : List Char → List Char
  | [] => []
  | c :: t => (if c = ':' then ['_'] else [c]) ++ encC4' t

theorem pyReplaceF_single (c : Char) (rep : List Char) :
    ∀ (fuel : Nat) (s : List Char), s.length ≤ fuel →
      pyReplaceF [c] rep fuel s = mapSingle c rep s := by
  intro fuel
  induction fuel with
  | zero =>
    intro s hs
    cases s with
    | nil => rfl
    | cons x t => simp at hs
  | succ f ih =>
    intro s hs
    cases s with
    | nil => rfl
    | cons x t =>
      simp only [pyReplaceF, mapSingle]
      split
      · rename_i hcond
        have hx : x = c := by
          have hpre := hcond.2
          simp [List.isPrefixOf] at hpre
          exact hpre.symm
        rw [if_pos hx]
        simp only [List.length_singleton, List.drop_succ_cons, List.drop_zero]
        rw [ih t (by simpa using hs)]
      · rename_i hcond
        have hx : x ≠ c := by
          intro he
          exact hcond ⟨by simp, by simp [List.isPrefixOf, he]⟩
        rw [if_neg hx]
        rw [ih t (by simpa using hs)]
        rfl

theorem pyReplace_single (c : Char) (rep : List Char) (s : List Char) :
    pyReplace s [c] rep = mapSingle c rep s :=
  pyReplaceF_single c rep s.length s le_rfl

theorem enc_eq (m : List Char) :
    pyReplace (pyReplace m ['/'] ['-', '-']) [':'] ['_'] = encC4 m := by
  rw [pyReplace_single, pyReplace_single]
  induction m with
  | nil => rfl
  | cons c t ih =>
    by_cases hs : c = '/'
    · subst hs
      simp [mapSingle, encC4, ih]
    · by_cases hc : c = ':'
      · subst hc
        simp [mapSingle, encC4, ih]
      · simp [mapSingle, encC4, hs, hc, ih]

theorem not_dot_encC4 (m : List Char) (h : '.' ∉ m) : '.' ∉ encC4 m := by
  induction m with
  | nil => simp [encC4]
  | cons c t ih =>
    have hc : c ≠ '.' := fun he => h (he ▸ List.mem_cons_self c t)
    have ht := ih (fun hm => h (List.mem_cons_of_mem c hm))
    simp only [encC4]
    intro hmem
    rcases List.mem_append.mp hmem with hl | hr
    · by_cases hs : c = '/'
      · simp [hs] at hl
      · by_cases hcol : c = ':'
        · simp [hs, hcol] at hl
        · simp [hs, hcol] at hl
          exact hc hl.symm
    · exact ht hr

theorem stripJson (s : List Char) (h : '.' ∉ s) :
    ∀ fuel, (s ++ ".json".data).length ≤ fuel →
      pyReplaceF ".json".data [] fuel (s ++ ".json".data) = s := by
  induction s with
  | nil =>
    intro fuel hf
    simp only [List.nil_append] at hf ⊢
    obtain ⟨g, rfl⟩ : ∃ g, fuel = g + 1 := by
      cases fuel with
      | zero => simp [String.length, String.data] at hf
      | succ g => exact ⟨g, rfl⟩
    show pyReplaceF ['.', 'j', 's', 'o', 'n'] [] (g + 1) ['.', 'j', 's', 'o', 'n'] = []
    simp only [pyReplaceF]
    split
    · simp [pyReplaceF]
    · rename_i hcond
      exact absurd (by decide) hcond
  | cons c t ih =>
    intro fuel hf
    have hc : c ≠ '.' := fun he => h (he ▸ List.mem_cons_self c t)
    have ht : '.' ∉ t := fun hm => h (List.mem_cons_of_mem c hm)
    obtain ⟨f, rfl⟩ : ∃ f, fuel = f + 1 := by
      cases fuel with
      | zero => simp at hf
      | succ f => exact ⟨f, rfl⟩
    show pyReplaceF ['.', 'j', 's', 'o', 'n'] [] (f + 1)
        (c :: (t ++ ['.', 'j', 's', 'o', 'n'])) = c :: t
    simp only [pyReplaceF]
    split
    · rename_i hcond
      have hpre := hcond.2
      simp [List.isPrefixOf] at hpre
      exact absurd hpre.1.symm hc
    · have hrec := ih ht f (by simpa using hf)
      rw [show (t ++ ".json".data) = (t ++ ['.', 'j', 's', 'o', 'n']) from rfl] at hrec
      rw [hrec]

theorem decodeDash (m : List Char) (h : '-' ∉ m) :
    ∀ fuel, (encC4 m).length ≤ fuel →
      pyReplaceF ['-', '-'] ['/'] fuel (encC4 m) = encC4' m := by
  induction m with
  | nil =>
    intro fuel hf
    cases fuel <;> rfl
  | cons c t ih =>
    intro fuel hf
    have hc : c ≠ '-' := fun he => h (he ▸ List.mem_cons_self c t)
    have ht : '-' ∉ t := fun hm => h (List.mem_cons_of_mem c hm)
    by_cases hs : c = '/'
    · subst hs
      have henc : encC4 ('/' :: t) = '-' :: '-' :: encC4 t := by
        simp [encC4]
      rw [henc] at hf ⊢
      obtain ⟨f, rfl⟩ : ∃ f, fuel = f + 1 := by
        cases fuel with
        | zero => simp at hf
        | succ f => exact ⟨f, rfl⟩
      simp only [pyReplaceF]
      split
      · show '/' :: pyReplaceF ['-', '-'] ['/'] f (encC4 t) = encC4' ('/' :: t)
        rw [ih ht f (by simp only [List.length_cons] at hf; omega)]
        simp [encC4']
      · rename_i hcond
        exact absurd ⟨by simp, by simp [List.isPrefixOf]⟩ hcond
    · by_cases hcol : c = ':'
      · subst hcol
        have henc : encC4 (':' :: t) = '_' :: encC4 t := by simp [encC4]
        rw [henc] at hf ⊢
        obtain ⟨f, rfl⟩ : ∃ f, fuel = f + 1 := by
          cases fuel with
          | zero => simp at hf
          | succ f => exact ⟨f, rfl⟩
        simp only [pyReplaceF]
        split
        · rename_i hcond
          simp [List.isPrefixOf] at hcond
        · show '_' :: pyReplaceF ['-', '-'] ['/'] f (encC4 t) = encC4' (':' :: t)
          rw [ih ht f (by simp only [List.length_cons] at hf; omega)]
          simp [encC4']
      · have henc : encC4 (c :: t) = c :: encC4 t := by simp [encC4, hs, hcol]
        rw [henc] at hf ⊢
        obtain ⟨f, rfl⟩ : ∃ f, fuel = f + 1 := by
          cases fuel with
          | zero => simp at hf
          | succ f => exact ⟨f, rfl⟩
        simp only [pyReplaceF]
        split
        · rename_i hcond
          have hpre := hcond.2
          simp [List.isPrefixOf] at hpre
          exact absurd hpre.1.symm hc
        · show c :: pyReplaceF ['-', '-'] ['/'] f (encC4 t) = encC4' (c :: t)
          rw [ih ht f (by simp only [List.length_cons] at hf; omega)]
          simp [encC4', hcol]

theorem decodeUnder (m : List Char) (h : '_' ∉ m) :
    pyReplace (encC4' m) ['_'] [':'] = m := by
  rw [pyReplace_single]
  induction m with
  | nil => rfl
  | cons c t ih =>
    have hc : c ≠ '_' := fun he => h (he ▸ List.mem_cons_self c t)
    have ht := ih (fun hm => h (List.mem_cons_of_mem c hm))
    by_cases hcol : c = ':'
    · subst hcol
      simp [encC4', mapSingle, ht]
    · simp [encC4', mapSingle, hcol, hc, ht]

/-- Counterexample for C4 as stated: the transform is not reversible for
every model identifier.  An underscore comes back as a colon, a hyphen next
to a slash is mis-parsed on the way back, and an embedded `.json` is
swallowed. -/
theorem model_filename_roundtrip_cex :
    filename_to_model (model_to_filename "a_b") ≠ "a_b"
    ∧ filename_to_model (model_to_filename "a-/b") ≠ "a-/b"
    ∧ filename_to_model (model_to_filename "a.json") ≠ "a.json" := by
  refine ⟨?_, ?_, ?_⟩ <;> decide

/-- C4 (amended): the filesystem-safe transform is reversible for every
model identifier that contains no underscore, no hyphen and no dot (in
particular for identifiers built from letters, digits, slashes and colons):
converting such an identifier to its filename form and back yields the
original. -/
theorem model_filename_roundtrip_amended (m : String)
    (h : ∀ c ∈ m.data, c ≠ '_' ∧ c ≠ '-' ∧ c ≠ '.') :
    filename_to_model (model_to_filename m) = m := by
  obtain ⟨md⟩ := m
  have hU : '_' ∉ md := fun hm => (h _ hm).1 rfl
  have hD : '-' ∉ md := fun hm => (h _ hm).2.1 rfl
  have hP : '.' ∉ md := fun hm => (h _ hm).2.2 rfl
  show (⟨pyReplace (pyReplace (pyReplace
      (pyReplace (pyReplace md ['/'] ['-', '-']) [':'] ['_'] ++ ".json".data)
      ".json".data []) ['-', '-'] ['/']) ['_'] [':']⟩ : String) = ⟨md⟩
  rw [enc_eq md]
  rw [show pyReplace (encC4 md ++ ".json".data) ".json".data [] = encC4 md from
    stripJson (encC4 md) (not_dot_encC4 md hP) _ le_rfl]
  rw [show pyReplace (encC4 md) ['-', '-'] ['/'] = encC4' md from
    decodeDash md hD _ le_rfl]
  rw [decodeUnder md hU]

/-- Closed witness for the amended C4 at a model identifier with slashes and
a colon. -/
theorem model_filename_roundtrip_amended_witness :
    filename_to_model (model_to_filename "meta/llama:70b") = "meta/llama:70b" :=
  model_filename_roundtrip_amended "meta/llama:70b" (by decide)

/-! ## Serialization round-trip -/

theorem pyRstripZ_append (t : String) (h : t.data.getLast? ≠ some 'Z') :
    pyRstripZ (t ++ "Z") = t := by
  obtain ⟨td⟩ := t
  show (⟨((td ++ ['Z']).reverse.dropWhile (· = 'Z')).reverse⟩ : String) = ⟨td⟩
  have hrw : (td ++ ['Z']).reverse = 'Z' :: td.reverse := by simp
  rw [hrw]
  have hstep : List.dropWhile (· = 'Z') ('Z' :: td.reverse)
      = List.dropWhile (· = 'Z') td.reverse := by
    simp [List.dropWhile]
  rw [hstep]
  cases hrev : td.reverse with
  | nil =>
    have htd : td = [] := by simpa using congrArg List.reverse hrev
    subst htd
    rfl
  | cons c r =>
    have hlast : td.getLast? = some c := by
      rw [← List.head?_reverse, hrev]
      rfl
    have hcne : c ≠ 'Z' := by
      intro he
      apply h
      rw [hlast, he]
    have hc : ¬(decide (c = 'Z') = true) := by simpa using hcne
    rw [List.dropWhile_cons, if_neg hc]
    have hback : (c :: r).reverse = td := by
      simpa using (congrArg List.reverse hrev).symm
    rw [hback]

theorem scenario_roundtrip (r : ScenarioResult)
    (h1 : r.last_checked.data.getLast? ≠ some 'Z')
    (h2 : ∀ t, r.last_success = some t → t.data.getLast? ≠ some 'Z')
    (h3 : ∀ s, r.details = some s → s.length ≤ 500) :
    ScenarioResult.from_dict (ScenarioResult.to_dict r) = some r := by
  obtain ⟨st, dur, lc, ls, ec, det⟩ := r
  have hst : Status.ofValue st.value = some st := by cases st <;> rfl
  have hlc : pyRstripZ (lc ++ "Z") = lc := pyRstripZ_append lc h1
  have hdet : truncateDetails det = det := by
    cases det with
    | none => rfl
    | some s =>
      have hs := h3 s rfl
      simp only [truncateDetails]
      rw [if_neg]
      rintro ⟨-, hlen⟩
      omega
  cases ec with
  | none =>
    cases ls with
    | none =>
      simp [ScenarioResult.to_dict, ScenarioResult.from_dict, optTruthy, hst, hdet, hlc]
    | some t =>
      have htne : ¬(t ++ "Z" = "") := by
        intro he
        have hl := congrArg String.data he
        simp at hl
      have hts : pyRstripZ (t ++ "Z") = t := pyRstripZ_append t (h2 t rfl)
      simp [ScenarioResult.to_dict, ScenarioResult.from_dict, optTruthy, hst, hdet,
        hlc, htne, hts]
  | some cat =>
    have hcat : ErrorCategory.ofValue cat.value = some cat := by cases cat <;> rfl
    have hcatne : ¬(cat.value = "") := by cases cat <;> simp [ErrorCategory.value]
    cases ls with
    | none =>
      simp [ScenarioResult.to_dict, ScenarioResult.from_dict, optTruthy, hst, hdet,
        hlc, hcat, hcatne]
    | some t =>
      have htne : ¬(t ++ "Z" = "") := by
        intro he
        have hl := congrArg String.data he
        simp at hl
      have hts : pyRstripZ (t ++ "Z") = t := pyRstripZ_append t (h2 t rfl)
      simp [ScenarioResult.to_dict, ScenarioResult.from_dict, optTruthy, hst, hdet,
        hlc, hcat, hcatne, htne, hts]

theorem scenariosFromDict_roundtrip (l : List (String × ScenarioResult))
    (h : ∀ kv ∈ l,
      kv.2.last_checked.data.getLast? ≠ some 'Z'
      ∧ (∀ t, kv.2.last_success = some t → t.data.getLast? ≠ some 'Z')
      ∧ (∀ s, kv.2.details = some s → s.length ≤ 500)) :
    scenariosFromDict (l.map (fun kv => (kv.1, ScenarioResult.to_dict kv.2))) = some l := by
  induction l with
  | nil => rfl
  | cons kv t ih =>
    obtain ⟨hh1, hh2, hh3⟩ := h kv (List.mem_cons_self kv t)
    simp only [List.map_cons, scenariosFromDict]
    rw [scenario_roundtrip kv.2 hh1 hh2 hh3,
      ih (fun x hx => h x (List.mem_cons_of_mem kv hx))]

set_option maxRecDepth 40000 in
/-- Counterexample for C3 as stated: a `ScenarioResult` whose `details` is
501 characters long does not survive the round-trip — `to_dict` truncates it
to 500 characters plus a marker. -/
theorem model_status_roundtrip_cex :
    ModelStatus.from_dict (ModelStatus.to_dict
      (ModelStatus.mk "gpt2" "2024-06-11T09:00:00" "0.4.5"
        [("generation", ⟨Status.FAILED, 5000, "2024-06-11T09:00:00", none,
            some ErrorCategory.TIMEOUT, some ⟨List.replicate 501 'a'⟩⟩)]))
      ≠ some (ModelStatus.mk "gpt2" "2024-06-11T09:00:00" "0.4.5"
        [("generation", ⟨Status.FAILED, 5000, "2024-06-11T09:00:00", none,
            some ErrorCategory.TIMEOUT, some ⟨List.replicate 501 'a'⟩⟩)]) := by
  decide

/-- C3 (amended): serializing a `ModelStatus` to its persisted dict form and
deserializing it back yields an identical value in every field, for every
`ModelStatus` whose datetime fields are canonical ISO strings (they do not
end in `'Z'`) and whose scenarios' `details` are null or at most 500
characters — longer details are truncated on write and so need not
round-trip. -/
theorem model_status_roundtrip_amended (m : ModelStatus)
    (hlu : m.last_updated.data.getLast? ≠ some 'Z')
    (hsc : ∀ kv ∈ m.scenarios,
      kv.2.last_checked.data.getLast? ≠ some 'Z'
      ∧ (∀ t, kv.2.last_success = some t → t.data.getLast? ≠ some 'Z')
      ∧ (∀ s, kv.2.details = some s → s.length ≤ 500)) :
    ModelStatus.from_dict (ModelStatus.to_dict m) = some m := by
  obtain ⟨mn, lu, ver, scs⟩ := m
  simp only [ModelStatus.to_dict, ModelStatus.from_dict]
  rw [scenariosFromDict_roundtrip scs hsc]
  rw [pyRstripZ_append lu hlu]

/-- Closed witness for the amended C3 at a two-scenario record exercising
null and populated nullable fields. -/
theorem model_status_roundtrip_amended_witness :
    ModelStatus.from_dict (ModelStatus.to_dict
      (ModelStatus.mk "openai-community/gpt2" "2024-06-11T09:00:02" "0.4.5"
        [("allocation", ⟨Status.OK, 120, "2024-06-11T09:00:00",
            some "2024-06-11T09:00:00", none, none⟩),
         ("generation", ⟨Status.FAILED, 50, "2024-06-11T09:00:02", none,
            some ErrorCategory.TIMEOUT, some "Request timed out"⟩)]))
      = some (ModelStatus.mk "openai-community/gpt2" "2024-06-11T09:00:02" "0.4.5"
        [("allocation", ⟨Status.OK, 120, "2024-06-11T09:00:00",
            some "2024-06-11T09:00:00", none, none⟩),
         ("generation", ⟨Status.FAILED, 50, "2024-06-11T09:00:02", none,
            some ErrorCategory.TIMEOUT, some "Request timed out"⟩)]) :=
  model_status_roundtrip_amended _ (by decide) (by decide)

/-! ## Daily summary: Eastern-time grouping -/

theorem mem_dictKeys_dictSet {V : Type} (d : List (String × V)) (k : String) (v : V)
    (k' : String) : k' ∈ dictKeys (dictSet d k v) ↔ (k' ∈ dictKeys d ∨ k' = k) := by
  induction d with
  | nil => simp [dictKeys, dictSet]
  | cons kv t ih =>
    obtain ⟨a, b⟩ := kv
    by_cases h : a = k
    · subst h
      simp [dictKeys, dictSet]
      tauto
    · simp only [dictKeys, dictSet, if_neg h, List.map_cons, List.mem_cons] at ih ⊢
      rw [ih]
      tauto

theorem mem_dictKeys_addEntry (daily : List (String × List (String × ModelDay)))
    (e : HistoryEntry) (k : String) :
    k ∈ dictKeys (addEntry daily e) ↔ k ∈ dictKeys daily ∨ k = dateKeyOf e := by
  simp only [addEntry]
  exact mem_dictKeys_dictSet daily (dateKeyOf e) _ k

theorem mem_dictKeys_buildDaily_aux (entries : List HistoryEntry) :
    ∀ (acc : List (String × List (String × ModelDay))) (k : String),
      k ∈ dictKeys (entries.foldl addEntry acc) ↔
        k ∈ dictKeys acc ∨ ∃ e ∈ entries, dateKeyOf e = k := by
  induction entries with
  | nil =>
    intro acc k
    simp
  | cons e t ih =>
    intro acc k
    simp only [List.foldl_cons]
    rw [ih, mem_dictKeys_addEntry]
    simp only [List.mem_cons]
    constructor
    · rintro ((hk | hk) | ⟨x, hx, hk⟩)
      · exact Or.inl hk
      · exact Or.inr ⟨e, Or.inl rfl, hk.symm⟩
      · exact Or.inr ⟨x, Or.inr hx, hk⟩
    · rintro (hk | ⟨x, hx | hx, hk⟩)
      · exact Or.inl (Or.inl hk)
      · subst hx
        exact Or.inl (Or.inr hk.symm)
      · exact Or.inr ⟨x, hx, hk⟩

theorem dictKeys_summarize (d : List (String × List (String × ModelDay))) :
    dictKeys (summarize d) = dictKeys d := by
  simp [dictKeys, summarize, List.map_map, Function.comp_def]

theorem splitDash_ne_nil (l : List Char) : splitDash l ≠ [] := by
  cases l with
  | nil => simp [splitDash]
  | cons c t =>
    simp only [splitDash]
    cases splitDash t with
    | nil => simp
    | cons h r => by_cases hc : c = '-' <;> simp [hc]

theorem splitDash_nodash (b : List Char) (hb : '-' ∉ b) : splitDash b = [b] := by
  induction b with
  | nil => rfl
  | cons c t ih =>
    have hc : c ≠ '-' := fun he => hb (he ▸ List.mem_cons_self c t)
    have ht := ih (fun hm => hb (List.mem_cons_of_mem c hm))
    simp [splitDash, ht, fun he => hc he]

theorem splitDash_two_le (l : List Char) (h : '-' ∈ l) : 2 ≤ (splitDash l).length := by
  induction l with
  | nil => simp at h
  | cons c t ih =>
    simp only [splitDash]
    rcases hsp : splitDash t with _ | ⟨hh, r⟩
    · exact absurd hsp (splitDash_ne_nil t)
    · by_cases hc : c = '-'
      · simp [hc]
      · have ht : '-' ∈ t := by
          rcases List.mem_cons.mp h with he | ht
          · exact absurd he.symm hc
          · exact ht
        have h2 := ih ht
        rw [hsp] at h2
        simp only [List.length_cons] at h2 ⊢
        simp [hc]
        omega

theorem splitDash_append_dash (a b : List Char) (hb : '-' ∉ b) :
    (splitDash (a ++ '-' :: b)).getLastD [] = b := by
  induction a with
  | nil =>
    simp [splitDash, splitDash_nodash b hb]
  | cons c a' ih =>
    simp only [List.cons_append, splitDash]
    rcases hsp : splitDash (a' ++ '-' :: b) with _ | ⟨h, r⟩
    · exact absurd hsp (splitDash_ne_nil _)
    · have hr : r ≠ [] := by
        have hmem : '-' ∈ a' ++ '-' :: b := by simp
        have hlen := splitDash_two_le _ hmem
        rw [hsp] at hlen
        intro h0
        rw [h0] at hlen
        simp at hlen
      have hih := ih
      rw [hsp, List.getLastD_cons] at hih
      show ((if c = '-' then [] :: h :: r else (c :: h) :: r).getLastD []) = b
      by_cases hc : c = '-'
      · rw [if_pos hc, List.getLastD_cons, List.getLastD_cons]
        exact hih
      · rw [if_neg hc, List.getLastD_cons]
        cases r with
        | nil => exact absurd rfl hr
        | cons q qs =>
          rw [List.getLastD_cons] at hih ⊢
          exact hih

theorem hourPart_append (a b : String) (hb : '-' ∉ b.data) :
    hourPart (a ++ "-" ++ b) = b := by
  obtain ⟨bd⟩ := b
  show (⟨(splitDash ((a ++ "-" ++ ⟨bd⟩).data)).getLastD []⟩ : String) = ⟨bd⟩
  have hdata : (a ++ "-" ++ (⟨bd⟩ : String)).data = a.data ++ '-' :: bd := by
    simp
  rw [hdata, splitDash_append_dash a.data bd hb]

theorem natToString_nodash : ∀ n, n < 24 → '-' ∉ (natToString n).data := by decide

theorem eastern_hour_lt (dt : PyDateTime) : (utcToEastern dt).hour < 24 := by
  simp only [utcToEastern]
  have h1 : 0 ≤ (totalHours dt - (if isEasternDST (totalHours dt) then 4 else 5)).emod 24 :=
    Int.emod_nonneg _ (by norm_num)
  have h2 : (totalHours dt - (if isEasternDST (totalHours dt) then 4 else 5)).emod 24 < 24 :=
    Int.emod_lt_of_pos _ (by norm_num)
  omega

/-- C5: `get_daily_summary` groups by the Eastern calendar date, not the UTC
one: its date keys are exactly the Eastern dates of the loaded entries (so
any two entries with equal Eastern dates fall under one key); each parseable
entry's hour bucket key is its Eastern hour of day, a number below 24; and
concretely, entries at 23:30 UTC and 00:30 UTC the next day — different UTC
dates — are both grouped under the single Eastern date key `2024-06-10`,
with hour buckets `19` and `20`. -/
theorem daily_summary_eastern_spec :
    (∀ (entries : List HistoryEntry) (k : String),
      k ∈ dictKeys (get_daily_summary entries) ↔ ∃ e ∈ entries, dateKeyOf e = k)
    ∧ (∀ (e : HistoryEntry) (dt : PyDateTime),
        fromisoformat (pyRstripZ e.timestamp) = some dt →
          hourKeyOf e = natToString (utcToEastern dt).hour ∧ (utcToEastern dt).hour < 24)
    ∧ (utcDate10 "2024-06-10T23:30:00Z" ≠ utcDate10 "2024-06-11T00:30:00Z"
      ∧ get_daily_summary
          [⟨"2024-06-10T23:30:00Z", "gpt2", "generation", "OK", 100, none, none, none, none⟩,
           ⟨"2024-06-11T00:30:00Z", "gpt2", "generation", "OK", 70, none, none, none, none⟩]
        = [("2024-06-10", [("gpt2",
            ⟨some "OK", [("generation", "OK")],
              [("19", some "OK"), ("20", some "OK")]⟩)])]) := by
  refine ⟨?_, ?_, by decide, by decide⟩
  · intro entries k
    unfold get_daily_summary
    rw [dictKeys_summarize]
    have h := mem_dictKeys_buildDaily_aux entries [] k
    simpa [buildDaily, dictKeys] using h
  · intro e dt hp
    refine ⟨?_, eastern_hour_lt dt⟩
    simp only [hourKeyOf, utc_to_eastern_hour]
    rw [hp]
    exact hourPart_append _ _ (natToString_nodash _ (eastern_hour_lt dt))

/-- Closed witness for C5: the 23:30 UTC entry's hour bucket key is its
Eastern hour, 19. -/
theorem daily_summary_eastern_spec_witness :
    hourKeyOf ⟨"2024-06-10T23:30:00Z", "gpt2", "generation", "OK", 100,
        none, none, none, none⟩
      = natToString (utcToEastern ⟨2024, 6, 10, 23, 30, 0⟩).hour
    ∧ (utcToEastern ⟨2024, 6, 10, 23, 30, 0⟩).hour < 24 :=
  daily_summary_eastern_spec.2.1
    ⟨"2024-06-10T23:30:00Z", "gpt2", "generation", "OK", 100, none, none, none, none⟩
    ⟨2024, 6, 10, 23, 30, 0⟩ (by decide)

end NdifMonitor
